import Mathlib

/-!
Verification of the client-side optimistic mutation/synchronization engine of
the showcase todo application (src/islands/TodoListView.tsx).

The source is a single Preact island.  We shallowly embed its state and
handlers:

* `LocalMutation` mirrors the `LocalMutation` interface (`text: string | null`
  becomes `Option String`, `completed: boolean` becomes `Bool`).
* The mutation buffer `localMutations` is a JavaScript `Map<string,
  LocalMutation>`; we model it as an insertion-ordered association list with
  `mapSet` implementing `Map.prototype.set` (overwrite in place when the key
  exists, append otherwise) and `Array.from` iteration order.
* `ClientState` collects the component state cells (`data`, `dirty`,
  `localMutations`, `hasLocalMutations`, `adding`); the handlers `addTodo`,
  `saveTodo`, the `TodoItem` callbacks, the EventSource message handler and
  the sync-loop body become functions on it.
* The sync loop's chunked submission (`chunkSize = 10`, retry-until-success
  with a fixed 1000 ms delay) is embedded as fuel-bounded functions producing
  the list of network actions the loop performs.
* The EventSource lifecycle is embedded as a connection record tracking which
  listeners are attached; the error handler closes the current connection and
  constructs a fresh `EventSource` (to which, in the source, no listeners are
  attached).
-/

namespace TodoApp

/-- `interface LocalMutation { text: string | null; completed: boolean }`. -/
structure LocalMutation where
  text : Option String
  completed : Bool
deriving DecidableEq, Repr

/-- An item of the todo list as the client displays it (`TodoListItem`). -/
structure TodoListItem where
  id : String
  text : String
  completed : Bool
  createdAt : Nat
  versionstamp : String
deriving DecidableEq, Repr

/-- `TodoList`: the full snapshot the server pushes. -/
structure TodoList where
  items : List TodoListItem
deriving DecidableEq, Repr

/-- The mutation buffer: `Map<string, LocalMutation>` as an insertion-ordered
association list (the order `Array.from` observes). -/
abbrev Buffer := List (String × LocalMutation)

/-- `Map.prototype.set`: if the key is present, replace its value in place
(keeping its position); otherwise append the new entry at the end. -/
def mapSet (b : Buffer) (k : String) (v : LocalMutation) : Buffer :=
  if b.any (fun p => p.1 = k) then
    b.map (fun p => if p.1 = k then (k, v) else p)
  else
    b ++ [(k, v)]

/-- The component state cells of `TodoListView`. -/
structure ClientState where
  data : TodoList
  dirty : Bool
  localMutations : Buffer
  hasLocalMutations : Bool
  adding : Bool
deriving DecidableEq, Repr

/-- `const busy = hasLocalMutations || dirty;`. -/
def busy (s : ClientState) : Bool :=
  s.hasLocalMutations || s.dirty

/-- `saveTodo(item, text, completed)`: overwrite the buffer entry for
`item.id` with the full field-set and raise `hasLocalMutations`. -/
def saveTodo (s : ClientState) (item : TodoListItem) (text : Option String)
    (completed : Bool) : ClientState :=
  { s with
    localMutations := mapSet s.localMutations item.id ⟨text, completed⟩
    hasLocalMutations := true }

/-- `generateItemId`: an opaque fresh-id source, modelled as a counter. -/
def generateItemId (counter : Nat) : String × Nat :=
  (toString counter, counter + 1)

/-- `addTodo`: read the input value; an empty value returns immediately
(`if (!value) return;`); otherwise generate a fresh id, record a pending
edit with `completed: false`, and raise `hasLocalMutations` and `adding`.
The id counter is threaded explicitly. -/
def addTodo (s : ClientState) (counter : Nat) (value : String) :
    ClientState × Nat :=
  if value = "" then (s, counter)
  else
    let (id, counter') := generateItemId counter
    ({ s with
        localMutations := mapSet s.localMutations id ⟨some value, false⟩
        hasLocalMutations := true
        adding := true },
      counter')

/-- `TodoItem.doSaveCompleted(completed)`: `save(item, item.text, completed)`. -/
def doSaveCompleted (s : ClientState) (item : TodoListItem)
    (completed : Bool) : ClientState :=
  saveTodo s item (some item.text) completed

/-- `TodoItem.doDelete`: after the confirm dialog answers yes,
`save(item, null, item.completed)`. -/
def doDelete (s : ClientState) (confirmAnswer : Bool) (item : TodoListItem) :
    ClientState :=
  if confirmAnswer then saveTodo s item none item.completed else s

/-- The EventSource message handler: parse the payload as a full `TodoList`,
replace `data` wholesale, clear `dirty`, clear `adding`. -/
def onMessage (s : ClientState) (snapshot : TodoList) : ClientState :=
  { s with data := snapshot, dirty := false, adding := false }

/-- The client-state effect of one sync-loop cycle: swap the buffer for an
empty map, lower `hasLocalMutations`, and when the drained sequence is
non-empty set `dirty` before submitting.  The submissions themselves do not
touch the component state. -/
def syncCycle (s : ClientState) : ClientState :=
  let mutations := s.localMutations
  let s1 := { s with localMutations := ([] : Buffer), hasLocalMutations := false }
  if mutations.isEmpty then s1 else { s1 with dirty := true }

/-- The events that touch the component state, under the cooperative
single-threaded scheduling of the source: user saves (including deletes and
completion toggles, all of which call `saveTodo`), user adds, one sync-loop
cycle, and an EventSource message (snapshot) being handled. -/
inductive ClientEvent where
  | save (item : TodoListItem) (text : Option String) (completed : Bool)
  | add (freshId : String) (value : String)
  | cycle
  | snapshot (payload : TodoList)
deriving DecidableEq, Repr

/-- One cooperative step of the component.  For `add` the generated id is
carried by the event (the generator is an external collaborator). -/
def clientStep (e : ClientEvent) (s : ClientState) : ClientState :=
  match e with
  | .save item text completed => saveTodo s item text completed
  | .add freshId value =>
      if value = "" then s
      else
        { s with
          localMutations := mapSet s.localMutations freshId ⟨some value, false⟩
          hasLocalMutations := true
          adding := true }
  | .cycle => syncCycle s
  | .snapshot payload => onMessage s payload

/-- Run a sequence of cooperative steps. -/
def clientRun (s : ClientState) (es : List ClientEvent) : ClientState :=
  es.foldl (fun s e => clientStep e s) s

/-! ### The EventSource lifecycle

The effect body is

```
let es = new EventSource(window.location.href);
es.addEventListener("message", handler);
es.addEventListener("error", async () => {
  es.close();
  const backoff = 10000 + Math.random() * 5000;
  await new Promise((resolve) => setTimeout(resolve, backoff));
  es = new EventSource(window.location.href);
});
```

Listeners are attached to the initial `EventSource` object only; the
`EventSource` constructed inside the error handler has no listeners attached
to it.  We track, per connection, which listeners it carries. -/

/-- An `EventSource` connection, with the listeners attached to it. -/
structure EventSourceConn where
  isOpen : Bool
  hasMessageListener : Bool
  hasErrorListener : Bool
deriving DecidableEq, Repr

/-- The connection the effect creates: both listeners are attached. -/
def initialConn : EventSourceConn :=
  { isOpen := true, hasMessageListener := true, hasErrorListener := true }

/-- The connection the error handler creates: `es = new EventSource(...)`
with no `addEventListener` calls on it. -/
def reconnectedConn : EventSourceConn :=
  { isOpen := true, hasMessageListener := false, hasErrorListener := false }

/-- State of the live-state channel together with the component state and a
count of how many `EventSource` constructions have happened. -/
structure ChanState where
  conn : EventSourceConn
  opens : Nat
  client : ClientState
deriving DecidableEq, Repr

/-- The channel state right after the effect runs. -/
def chanInit (s : ClientState) : ChanState :=
  { conn := initialConn, opens := 1, client := s }

/-- Events delivered on the current connection. -/
inductive ChanEvent where
  | message (payload : TodoList)
  | connError
deriving DecidableEq, Repr

/-- Deliver one channel event.  A listener runs only if the current
connection carries it: a message updates the client through `onMessage`; an
error closes the current connection and opens a fresh one (counted in
`opens`).  A connection without the corresponding listener ignores the
event. -/
def chanStep (st : ChanState) (e : ChanEvent) : ChanState :=
  match e with
  | .message payload =>
      if st.conn.hasMessageListener then
        { st with client := onMessage st.client payload }
      else st
  | .connError =>
      if st.conn.hasErrorListener then
        { st with conn := reconnectedConn, opens := st.opens + 1 }
      else st

/-- Run a sequence of channel events. -/
def chanRun (st : ChanState) (es : List ChanEvent) : ChanState :=
  es.foldl chanStep st

/-! ### The sync loop's chunked submission -/

/-- One element of a POST body: `{ id, text: mut.text, completed:
mut.completed }`. -/
structure BatchRecord where
  id : String
  text : Option String
  completed : Bool
deriving DecidableEq, Repr

/-- The body built for one chunk. -/
def toBatch (chunk : Buffer) : List BatchRecord :=
  chunk.map (fun p => ⟨p.1, p.2.text, p.2.completed⟩)

/-- The chunking of the loop `for (let i = 0; i < mutations.length; i +=
chunkSize) { mutations.slice(i, i + chunkSize) }` with `chunkSize = 10`.
The loop body runs for `i = 10 * j` with `10 * j < mutations.length`, i.e.
for `j < (mutations.length + 9) / 10`, and `slice(i, i + 10)` is
`(drop i).take 10`. -/
def chunked10 {α : Type} (ms : List α) : List (List α) :=
  (List.range ((ms.length + 9) / 10)).map (fun j => (ms.drop (10 * j)).take 10)

/-- The externally observable actions of the sync loop's submission code. -/
inductive SyncAction where
  | post (body : List BatchRecord)
  | wait (ms : Nat)
deriving DecidableEq, Repr

/-- The inner retry loop for one chunk,

```
while (true) {
  try { await axios.post(window.location.href, chunk); break; }
  catch { await new Promise((resolve) => setTimeout(resolve, 1000)); }
}
```

against a network oracle `net` (whether the `t`-th POST attempt overall
succeeds), bounded by fuel since the source loop is unbounded.  Returns the
trace of actions and the next attempt index, or `none` when the fuel runs
out before a success. -/
def submitRetry (net : Nat → Bool) (body : List BatchRecord) :
    Nat → Nat → Option (List SyncAction × Nat)
  | _, 0 => none
  | t, fuel + 1 =>
      if net t then some ([SyncAction.post body], t + 1)
      else
        match submitRetry net body (t + 1) fuel with
        | none => none
        | some (tr, t') =>
            some (SyncAction.post body :: SyncAction.wait 1000 :: tr, t')

/-- The outer `for` loop over chunks: each chunk is submitted through the
retry loop, strictly sequentially. -/
def submitChunks (net : Nat → Bool) (fuel : Nat) :
    List Buffer → Nat → Option (List SyncAction × Nat)
  | [], t => some ([], t)
  | c :: cs, t =>
      match submitRetry net (toBatch c) t fuel with
      | none => none
      | some (tr, t') =>
          match submitChunks net fuel cs t' with
          | none => none
          | some (tr', t'') => some (tr ++ tr', t'')

/-- The action trace of `k` failed attempts, each of the same body and each
followed by the fixed 1000 ms delay, then the final successful attempt. -/
def retryPattern (body : List BatchRecord) (k : Nat) : List SyncAction :=
  (List.replicate k [SyncAction.post body, SyncAction.wait 1000]).flatten ++
    [SyncAction.post body]

/-! ### The reconnection backoff -/

/-- `const backoff = 10000 + Math.random() * 5000;` with the random draw
made explicit. -/
def reconnectBackoff (r : ℚ) : ℚ :=
  10000 + r * 5000

/-- The steps of the error handler, in order. -/
inductive ErrAction where
  | closeConn
  | wait (ms : ℚ)
  | openConn
deriving DecidableEq, Repr

/-- The error handler body: close the current connection, await the jittered
backoff, then construct the new `EventSource`. -/
def errorHandlerTrace (r : ℚ) : List ErrAction :=
  [ErrAction.closeConn, ErrAction.wait (reconnectBackoff r), ErrAction.openConn]

/-! ### Traces over the mutation buffer

The buffer is shared between the user-input path (`record` via
`addTodo`/`saveTodo`) and the sync loop (the drain at the top of each
cycle).  Under cooperative scheduling every trace is an interleaving of
`record` and `drain` operations; `drain` is the atomic swap
`mutations := Array.from(localMutations.current);
localMutations.current = new Map()`. -/

/-- A buffer operation. -/
inductive BufOp where
  | record (id : String) (m : LocalMutation)
  | drain
deriving DecidableEq, Repr

/-- Run a trace of buffer operations; returns the final buffer and the list
of drained sequences, in order. -/
def runOps : List BufOp → Buffer → Buffer × List Buffer
  | [], b => (b, [])
  | BufOp.record id m :: ops, b => runOps ops (mapSet b id m)
  | BufOp.drain :: ops, b =>
      let (b', outs) := runOps ops []
      (b', b :: outs)

/-- Fold a list of record calls into a buffer. -/
def recordAll (recs : List (String × LocalMutation)) (b : Buffer) : Buffer :=
  recs.foldl (fun b p => mapSet b p.1 p.2) b

/-- The value of the last (most recent) record call for `id` in a window of
record calls listed in chronological order, if any. -/
def lastRecorded : List (String × LocalMutation) → String → Option LocalMutation
  | [], _ => none
  | p :: recs, id =>
      match lastRecorded recs id with
      | some v => some v
      | none => if p.1 = id then some p.2 else none

/-- Look up the pending edit for a key (`Map.prototype.get`). -/
def bufFind (b : Buffer) (k : String) : Option LocalMutation :=
  (b.find? (fun p => p.1 = k)).map Prod.snd

/-- The keys of the buffer, in iteration order. -/
def bufKeys (b : Buffer) : List String :=
  b.map Prod.fst

/-! ### Concrete sample states used by counterexamples and witnesses -/

/-- A displayed item whose `completed` field is `false`. -/
def itemX : TodoListItem :=
  { id := "X", text := "milk", completed := false, createdAt := 0,
    versionstamp := "v1" }

/-- A client state displaying `itemX`, with an empty buffer. -/
def stateX : ClientState :=
  { data := ⟨[itemX]⟩, dirty := false, localMutations := []
    hasLocalMutations := false, adding := false }

/-- A client state that is dirty and awaiting an add confirmation. -/
def stateDirty : ClientState :=
  { data := ⟨[itemX]⟩, dirty := true, localMutations := []
    hasLocalMutations := false, adding := true }

/-- A snapshot distinct from the one `stateDirty` displays. -/
def snapshotB : TodoList := ⟨[]⟩

/-- A client state with one pending edit in the buffer. -/
def stateWithPending : ClientState :=
  { data := ⟨[itemX]⟩, dirty := false
    localMutations := [("X", ⟨some "milk", true⟩)]
    hasLocalMutations := true, adding := false }

/-! ## Lemmas about the buffer -/

theorem mapSet_nil (k : String) (v : LocalMutation) :
    mapSet [] k v = [(k, v)] := rfl

theorem mapSet_cons_ne (p : String × LocalMutation) (rest : Buffer)
    (k : String) (v : LocalMutation) (h : p.1 ≠ k) :
    mapSet (p :: rest) k v = p :: mapSet rest k v := by
  by_cases ha : rest.any (fun q => q.1 = k)
  · simp [mapSet, h, ha]
  · simp [mapSet, h, ha]

theorem mapSet_cons_eq (p : String × LocalMutation) (rest : Buffer)
    (k : String) (v : LocalMutation) (h : p.1 = k) :
    mapSet (p :: rest) k v
      = (k, v) :: rest.map (fun q => if q.1 = k then (k, v) else q) := by
  simp [mapSet, h]

theorem bufFind_nil (k : String) : bufFind [] k = none := rfl

theorem bufFind_cons (p : String × LocalMutation) (b : Buffer) (k : String) :
    bufFind (p :: b) k = if p.1 = k then some p.2 else bufFind b k := by
  by_cases hp : p.1 = k
  · simp [bufFind, List.find?_cons, hp]
  · simp [bufFind, List.find?_cons, hp]

theorem bufFind_map_replace (rest : Buffer) (k k' : String)
    (v : LocalMutation) (h : k' ≠ k) :
    bufFind (rest.map (fun q => if q.1 = k then (k, v) else q)) k'
      = bufFind rest k' := by
  have hk : ¬ (k = k') := fun hkk => h hkk.symm
  induction rest with
  | nil => rfl
  | cons q rest ih =>
      rw [List.map_cons, bufFind_cons, bufFind_cons]
      by_cases hq : q.1 = k
      · have h2 : ¬ (q.1 = k') := by rw [hq]; exact hk
        simp [hq, hk, h2, ih]
      · simp only [if_neg hq]
        by_cases h2 : q.1 = k'
        · rw [if_pos h2, if_pos h2]
        · rw [if_neg h2, if_neg h2, ih]

theorem bufFind_mapSet_self (b : Buffer) (k : String) (v : LocalMutation) :
    bufFind (mapSet b k v) k = some v := by
  induction b with
  | nil => rw [mapSet_nil, bufFind_cons]; simp
  | cons p rest ih =>
      by_cases hp : p.1 = k
      · rw [mapSet_cons_eq p rest k v hp, bufFind_cons]
        simp
      · rw [mapSet_cons_ne p rest k v hp, bufFind_cons, if_neg hp]
        exact ih

theorem bufFind_mapSet_ne (b : Buffer) (k k' : String) (v : LocalMutation)
    (h : k' ≠ k) :
    bufFind (mapSet b k v) k' = bufFind b k' := by
  have hk : ¬ (k = k') := fun hkk => h hkk.symm
  induction b with
  | nil => rw [mapSet_nil, bufFind_cons]; simp [hk]
  | cons p rest ih =>
      by_cases hp : p.1 = k
      · rw [mapSet_cons_eq p rest k v hp, bufFind_cons, bufFind_cons]
        have hp' : ¬ (p.1 = k') := by rw [hp]; exact hk
        simp only [hk, if_false, hp', if_neg hk, if_neg hp']
        exact bufFind_map_replace rest k k' v h
      · rw [mapSet_cons_ne p rest k v hp, bufFind_cons, bufFind_cons]
        by_cases hp' : p.1 = k'
        · simp [hp']
        · simp [hp', ih]

theorem any_key_iff_mem_bufKeys (b : Buffer) (k : String) :
    (b.any fun p => p.1 = k) = true ↔ k ∈ bufKeys b := by
  constructor
  · intro hc
    rcases List.any_eq_true.mp hc with ⟨p, hp, he⟩
    exact List.mem_map.mpr ⟨p, hp, by simpa using he⟩
  · intro hc
    rcases List.mem_map.mp hc with ⟨p, hp, he⟩
    exact List.any_eq_true.mpr ⟨p, hp, by simpa using he⟩

theorem bufKeys_mapSet (b : Buffer) (k : String) (v : LocalMutation) :
    bufKeys (mapSet b k v)
      = if k ∈ bufKeys b then bufKeys b else bufKeys b ++ [k] := by
  by_cases hk : k ∈ bufKeys b
  · rw [if_pos hk]
    unfold mapSet
    rw [if_pos ((any_key_iff_mem_bufKeys b k).mpr hk)]
    unfold bufKeys
    rw [List.map_map]
    apply List.map_congr_left
    intro q _
    by_cases hqk : q.1 = k
    · simp [Function.comp, hqk]
    · simp [Function.comp, hqk]
  · rw [if_neg hk]
    unfold mapSet
    rw [if_neg (fun hc => hk ((any_key_iff_mem_bufKeys b k).mp hc))]
    simp [bufKeys]

theorem mem_bufKeys_mapSet (b : Buffer) (k id : String) (v : LocalMutation) :
    id ∈ bufKeys (mapSet b k v) ↔ id ∈ bufKeys b ∨ id = k := by
  rw [bufKeys_mapSet]
  by_cases hk : k ∈ bufKeys b
  · rw [if_pos hk]
    constructor
    · exact Or.inl
    · rintro (h | rfl)
      · exact h
      · exact hk
  · rw [if_neg hk]
    simp [List.mem_append]

theorem nodup_bufKeys_mapSet (b : Buffer) (k : String) (v : LocalMutation)
    (h : (bufKeys b).Nodup) : (bufKeys (mapSet b k v)).Nodup := by
  rw [bufKeys_mapSet]
  by_cases hk : k ∈ bufKeys b
  · rwa [if_pos hk]
  · rw [if_neg hk]
    simp [List.nodup_append, h, hk]

/-- C10: calling `addTodo` with an empty input value is a complete no-op:
the mutation buffer, the `hasLocalMutations` flag and the `adding` flag are
unchanged, and the id generator is not consumed. -/
theorem addTodo_empty_string_noop (s : ClientState) (counter : Nat) :
    (addTodo s counter "").1.localMutations = s.localMutations ∧
    (addTodo s counter "").1.hasLocalMutations = s.hasLocalMutations ∧
    (addTodo s counter "").1.adding = s.adding ∧
    addTodo s counter "" = (s, counter) := by
  refine ⟨?_, ?_, ?_, ?_⟩ <;> simp [addTodo]

/-! ## Lemmas about the chunking -/

theorem chunked10_map_length {α : Type} (ms : List α) :
    (chunked10 ms).map List.length
      = (List.range ((ms.length + 9) / 10)).map
          (fun j => min 10 (ms.length - 10 * j)) := by
  simp [chunked10, List.map_map, Function.comp, List.length_take,
    List.length_drop]

theorem flatten_slices {α : Type} (ms : List α) (K : Nat) :
    ((List.range K).map (fun j => (ms.drop (10 * j)).take 10)).flatten
      = ms.take (10 * K) := by
  induction K with
  | zero => simp
  | succ k ih =>
      rw [List.range_succ, List.map_append, List.flatten_append, ih]
      have h10 : 10 * (k + 1) = 10 * k + 10 := by ring
      rw [h10, List.take_add]
      simp

theorem chunked10_flatten {α : Type} (ms : List α) :
    (chunked10 ms).flatten = ms := by
  rw [chunked10, flatten_slices]
  apply List.take_of_length_le
  omega

theorem chunked10_dropLast_length {α : Type} (ms : List α) :
    ∀ c ∈ (chunked10 ms).dropLast, c.length = 10 := by
  intro c hc
  rw [chunked10] at hc
  rcases hK : (ms.length + 9) / 10 with _ | k
  · rw [hK] at hc
    simp at hc
  · rw [hK, List.range_succ, List.map_append] at hc
    simp only [List.map_cons, List.map_nil] at hc
    rw [List.dropLast_concat] at hc
    rcases List.mem_map.mp hc with ⟨j, hj, rfl⟩
    have hjk : j < k := List.mem_range.mp hj
    simp only [List.length_take, List.length_drop]
    omega

theorem chunked10_getLast_length {α : Type} (ms : List α)
    (h : ms.length % 10 ≠ 0) :
    (chunked10 ms).getLast?.map List.length = some (ms.length % 10) := by
  rw [chunked10]
  rcases hK : (ms.length + 9) / 10 with _ | k
  · omega
  · rw [List.range_succ, List.map_append]
    simp only [List.map_cons, List.map_nil, List.getLast?_concat]
    simp only [Option.map, List.length_take, List.length_drop]
    congr 1
    omega

/-! ## Lemmas about submission under a perfect network -/

theorem submitRetry_perfect (net : Nat → Bool) (hnet : ∀ a, net a = true)
    (body : List BatchRecord) (t fuel : Nat) (hf : 0 < fuel) :
    submitRetry net body t fuel = some ([SyncAction.post body], t + 1) := by
  cases fuel with
  | zero => omega
  | succ f => simp [submitRetry, hnet t]

theorem submitChunks_perfect (net : Nat → Bool) (hnet : ∀ a, net a = true)
    (fuel : Nat) (hf : 0 < fuel) (cs : List Buffer) (t : Nat) :
    submitChunks net fuel cs t
      = some (cs.map (fun c => SyncAction.post (toBatch c)), t + cs.length) := by
  induction cs generalizing t with
  | nil => simp [submitChunks]
  | cons c cs ih =>
      rw [submitChunks, submitRetry_perfect net hnet _ t fuel hf]
      dsimp only
      rw [ih (t + 1)]
      dsimp only
      simp only [Option.some.injEq, Prod.mk.injEq, List.singleton_append,
        List.map_cons, List.length_cons]
      exact ⟨trivial, by omega⟩

/-- C2: the sync loop partitions a drained sequence of `n` pending edits
into consecutive chunks of exactly 10 (joining back, in order, to the
drained sequence; every chunk but the last has exactly 10 edits; the final
chunk has `n mod 10` edits when `n` is not a multiple of 10), and submits
the chunks strictly sequentially in drain order; a drain of 23 pending
edits yields exactly 3 submissions of sizes 10, 10, 3, in that order. -/
theorem sync_loop_chunking (ms : Buffer) :
    (chunked10 ms).flatten = ms ∧
    (∀ c ∈ (chunked10 ms).dropLast, c.length = 10) ∧
    (ms.length % 10 ≠ 0 →
      (chunked10 ms).getLast?.map List.length = some (ms.length % 10)) ∧
    (∀ (net : Nat → Bool) (fuel t : Nat), (∀ a, net a = true) → 0 < fuel →
      submitChunks net fuel (chunked10 ms) t
        = some ((chunked10 ms).map (fun c => SyncAction.post (toBatch c)),
            t + (chunked10 ms).length)) ∧
    (ms.length = 23 → (chunked10 ms).map List.length = [10, 10, 3]) := by
  refine ⟨chunked10_flatten ms, chunked10_dropLast_length ms,
    chunked10_getLast_length ms, ?_, ?_⟩
  · intro net fuel t hnet hf
    exact submitChunks_perfect net hnet fuel hf (chunked10 ms) t
  · intro h23
    rw [chunked10_map_length, h23]
    rfl

/-- A concrete drain of 23 pending edits: chunk sizes are 10, 10, 3. -/
theorem sync_loop_chunking_witness :
    ((List.range 23).map
        (fun j => (toString j, LocalMutation.mk none false))).length = 23 ∧
    (chunked10 ((List.range 23).map
        (fun j => (toString j, LocalMutation.mk none false)))).map List.length
      = [10, 10, 3] := by
  have h : ((List.range 23).map
      (fun j => (toString j, LocalMutation.mk none false))).length = 23 := by
    simp
  exact ⟨h, ((sync_loop_chunking _).2.2.2.2) h⟩

/-! ## The reconnection backoff (C7) -/

/-- C7: after a channel error the delay before the new subscription attempt
is `base + random*spread` with base 10000 ms and spread 5000 ms; for every
random draw `r` in `[0, 1)` the delay lies in `[10000, 15000)` ms, and the
new `EventSource` is constructed only after the delay elapses (the handler's
steps are close, wait, open, in that order). -/
theorem reconnect_backoff_range (r : ℚ) (h0 : 0 ≤ r) (h1 : r < 1) :
    reconnectBackoff r = 10000 + r * 5000 ∧
    10000 ≤ reconnectBackoff r ∧ reconnectBackoff r < 15000 ∧
    errorHandlerTrace r
      = [ErrAction.closeConn, ErrAction.wait (reconnectBackoff r),
         ErrAction.openConn] := by
  refine ⟨rfl, ?_, ?_, rfl⟩
  · unfold reconnectBackoff
    nlinarith
  · unfold reconnectBackoff
    nlinarith

/-- C7 at the concrete draw `r = 1/2`: the delay is within bounds. -/
theorem reconnect_backoff_range_witness :
    (0 : ℚ) ≤ 1 / 2 ∧ (1 / 2 : ℚ) < 1 ∧
    10000 ≤ reconnectBackoff (1 / 2) ∧ reconnectBackoff (1 / 2) < 15000 :=
  ⟨by norm_num, by norm_num,
    (reconnect_backoff_range (1 / 2) (by norm_num) (by norm_num)).2.1,
    (reconnect_backoff_range (1 / 2) (by norm_num) (by norm_num)).2.2.1⟩

/-! ## The EventSource message handler and reconnection (C3, C4)

In the source, `addEventListener` is called only on the `EventSource`
constructed when the effect first runs.  The `EventSource` constructed
inside the error handler gets no listeners, so messages delivered on the
reconnected subscription are not handled, and further errors on it trigger
no further reconnection. -/

/-- C3 evaluated at the failing input: a message on the initial connection
replaces the displayed state and clears both flags, but after an
error-triggered reconnection a delivered snapshot leaves the client state
completely unchanged (`stateDirty` keeps `dirty = true`, `adding = true`
and its stale `data`), because the reconnected `EventSource` carries no
message listener. -/
theorem snapshot_dropped_after_reconnect :
    (chanStep (chanInit stateDirty) (ChanEvent.message snapshotB)).client
      = onMessage stateDirty snapshotB ∧
    (chanRun (chanInit stateDirty)
        [ChanEvent.connError, ChanEvent.message snapshotB]).client
      = stateDirty ∧
    stateDirty.dirty = true ∧ stateDirty.adding = true ∧
    stateDirty.data ≠ snapshotB := by
  refine ⟨rfl, rfl, rfl, rfl, by decide⟩

/-- C4 evaluated at the failing input: the first channel error closes the
connection and opens a second one (`opens` goes from 1 to 2), but the
reconnected connection carries no error listener, so a second connection
failure is a no-op: no third subscription is ever attempted. -/
theorem reconnect_not_permanent :
    (chanRun (chanInit stateDirty) [ChanEvent.connError]).opens = 2 ∧
    (chanRun (chanInit stateDirty)
        [ChanEvent.connError]).conn.hasErrorListener = false ∧
    chanRun (chanInit stateDirty) [ChanEvent.connError, ChanEvent.connError]
      = chanRun (chanInit stateDirty) [ChanEvent.connError] ∧
    (chanRun (chanInit stateDirty)
        [ChanEvent.connError, ChanEvent.connError]).opens = 2 := by
  refine ⟨rfl, rfl, rfl, rfl⟩

/-! ## The dirty flag (C5) and the busy signal (C9) -/

theorem cycle_sets_dirty (s : ClientState) (hne : s.localMutations ≠ []) :
    (clientStep ClientEvent.cycle s).dirty = true := by
  have hb : s.localMutations.isEmpty = false := by
    rcases hl : s.localMutations with _ | ⟨p, rest⟩
    · exact absurd hl hne
    · rfl
  simp [clientStep, syncCycle, hb]

/-- C5: the sync loop sets `dirty` whenever a drain returns a non-empty
sequence; no step other than the snapshot handler ever takes `dirty` from
`true` to `false`; and the snapshot handler does clear it. -/
theorem dirty_set_by_drain_cleared_by_snapshot (s : ClientState) :
    (s.localMutations ≠ [] → (clientStep ClientEvent.cycle s).dirty = true) ∧
    (∀ e : ClientEvent, (clientStep e s).dirty = false →
      s.dirty = false ∨ ∃ p, e = ClientEvent.snapshot p) ∧
    (∀ p, (clientStep (ClientEvent.snapshot p) s).dirty = false) := by
  refine ⟨cycle_sets_dirty s, ?_, ?_⟩
  · intro e he
    cases e with
    | save item text completed => left; simpa [clientStep, saveTodo] using he
    | add freshId value =>
        by_cases hv : value = ""
        · left; simpa [clientStep, hv] using he
        · left; simpa [clientStep, hv] using he
    | cycle =>
        by_cases hb : s.localMutations.isEmpty
        · left; simpa [clientStep, syncCycle, hb] using he
        · simp [clientStep, syncCycle, hb] at he
    | snapshot p => right; exact ⟨p, rfl⟩
  · intro p
    simp [clientStep, onMessage]

/-- C5 at a concrete state with a non-empty buffer: the drain cycle raises
`dirty`. -/
theorem dirty_set_by_drain_cleared_by_snapshot_witness :
    (clientStep ClientEvent.cycle stateWithPending).dirty = true :=
  (dirty_set_by_drain_cleared_by_snapshot stateWithPending).1 (by decide)

theorem dirty_preserved_nonsnapshot (e : ClientEvent) (s : ClientState)
    (he : ∀ p, e ≠ ClientEvent.snapshot p) (hd : s.dirty = true) :
    (clientStep e s).dirty = true := by
  cases e with
  | save item text completed => simpa [clientStep, saveTodo]
  | add freshId value => by_cases hv : value = "" <;> simp [clientStep, hv, hd]
  | cycle =>
      by_cases hb : s.localMutations.isEmpty <;>
        simp [clientStep, syncCycle, hb, hd]
  | snapshot p => exact absurd rfl (he p)

theorem dirty_preserved_run (es : List ClientEvent) :
    ∀ s : ClientState, (∀ e ∈ es, ∀ p, e ≠ ClientEvent.snapshot p) →
      s.dirty = true → (clientRun s es).dirty = true := by
  induction es with
  | nil => intro s _ hd; exact hd
  | cons e es ih =>
      intro s hes hd
      simp only [clientRun, List.foldl_cons]
      have h1 := dirty_preserved_nonsnapshot e s
        (hes e (List.mem_cons_self e es)) hd
      exact ih (clientStep e s)
        (fun e' he' => hes e' (List.mem_cons_of_mem e he')) h1

/-- C9: the busy signal is the disjunction of `hasLocalMutations` and
`dirty`; after a drain of a non-empty buffer `dirty` is raised, and along
any subsequent sequence of steps containing no snapshot delivery the busy
signal stays `true` — it can only turn off once the snapshot handler has
run. -/
theorem busy_until_snapshot (s : ClientState) (hne : s.localMutations ≠ [])
    (es : List ClientEvent)
    (hes : ∀ e ∈ es, ∀ p, e ≠ ClientEvent.snapshot p) :
    (∀ t : ClientState, busy t = (t.hasLocalMutations || t.dirty)) ∧
    (clientStep ClientEvent.cycle s).dirty = true ∧
    busy (clientRun (clientStep ClientEvent.cycle s) es) = true := by
  refine ⟨fun t => rfl, cycle_sets_dirty s hne, ?_⟩
  have hd := dirty_preserved_run es (clientStep ClientEvent.cycle s) hes
    (cycle_sets_dirty s hne)
  simp [busy, hd]

/-- C9 at a concrete run: a drain of one pending edit followed by a
non-snapshot step leaves the busy signal on. -/
theorem busy_until_snapshot_witness :
    busy (clientRun (clientStep ClientEvent.cycle stateWithPending)
      [ClientEvent.save itemX (some "other") true]) = true :=
  (busy_until_snapshot stateWithPending (by decide)
    [ClientEvent.save itemX (some "other") true]
    (by
      intro e he p
      rcases List.mem_singleton.mp he with rfl
      exact fun h => ClientEvent.noConfusion h)).2.2

/-! ## Coalescing in the mutation buffer (C8) -/

/-- C8 as stated is false: with an uncommitted `completed = true` edit for
`itemX` queued, recording a delete through `TodoItem.doDelete` leaves the
buffer holding `{text: null, completed: false}` — `doDelete` passes the
displayed item's `completed` (still `false`, the queued edit being
unconfirmed), not the queued edit's `completed = true`. -/
theorem delete_after_toggle_counterexample :
    (doDelete (doSaveCompleted stateX itemX true) true itemX).localMutations
      = [("X", ⟨none, false⟩)] ∧
    (doDelete (doSaveCompleted stateX itemX true) true itemX).localMutations
      ≠ [("X", ⟨none, true⟩)] ∧
    bufFind (doDelete (doSaveCompleted stateX itemX true) true
        itemX).localMutations "X" ≠ some ⟨none, true⟩ := by
  refine ⟨rfl, by decide, by decide⟩

/-- C8 amended: at most one pending edit per item id at any time (a record
call preserves key uniqueness); a newer record for the same id replaces the
previous one by whole field-set rather than merging; and in the
delete-after-uncommitted-toggle scenario the buffer holds exactly one
pending edit for the item, with `text = null` and `completed` equal to the
displayed item's `completed` field (the pre-edit value), not the queued
edit's `completed = true`. -/
theorem pending_edit_overwrite (s : ClientState) (item : TodoListItem)
    (text text2 : Option String) (completed completed2 : Bool)
    (hnd : (bufKeys s.localMutations).Nodup) :
    (bufKeys (saveTodo s item text completed).localMutations).Nodup ∧
    bufFind (saveTodo (saveTodo s item text completed) item text2
        completed2).localMutations item.id = some ⟨text2, completed2⟩ ∧
    (s.localMutations = [] →
      (doDelete (doSaveCompleted s item true) true item).localMutations
        = [(item.id, ⟨none, item.completed⟩)]) := by
  refine ⟨nodup_bufKeys_mapSet _ _ _ hnd, bufFind_mapSet_self _ _ _, ?_⟩
  intro hb
  simp [doDelete, doSaveCompleted, saveTodo, hb, mapSet]

/-- C8 amended, at the concrete scenario state: exactly one buffer entry,
carrying the delete marker and the displayed `completed` value. -/
theorem pending_edit_overwrite_witness :
    (doDelete (doSaveCompleted stateX itemX true) true itemX).localMutations
      = [(itemX.id, ⟨none, itemX.completed⟩)] :=
  (pending_edit_overwrite stateX itemX none none false false
    (by decide)).2.2 (by decide)

/-! ## The drain/swap protocol on the mutation buffer (C1) -/

theorem runOps_records (recs : List (String × LocalMutation)) :
    ∀ (ops : List BufOp) (b : Buffer),
      runOps (recs.map (fun p => BufOp.record p.1 p.2) ++ ops) b
        = runOps ops (recordAll recs b) := by
  induction recs with
  | nil => intro ops b; rfl
  | cons p recs ih =>
      intro ops b
      simp only [List.map_cons, List.cons_append, runOps, recordAll,
        List.foldl_cons]
      exact ih ops (mapSet b p.1 p.2)

theorem bufFind_recordAll (recs : List (String × LocalMutation)) :
    ∀ (b : Buffer) (id : String),
      bufFind (recordAll recs b) id
        = match lastRecorded recs id with
          | some v => some v
          | none => bufFind b id := by
  induction recs with
  | nil => intro b id; rfl
  | cons p recs ih =>
      intro b id
      have hr : recordAll (p :: recs) b = recordAll recs (mapSet b p.1 p.2) :=
        rfl
      rw [hr, ih]
      rcases hl : lastRecorded recs id with _ | v
      · simp only [lastRecorded, hl]
        by_cases hp : p.1 = id
        · rw [if_pos hp, ← hp]
          exact bufFind_mapSet_self b p.1 p.2
        · rw [if_neg hp]
          exact bufFind_mapSet_ne b p.1 id p.2 (fun h => hp h.symm)
      · simp only [lastRecorded, hl]

theorem mem_bufKeys_recordAll (recs : List (String × LocalMutation)) :
    ∀ (b : Buffer) (id : String),
      id ∈ bufKeys (recordAll recs b)
        ↔ id ∈ bufKeys b ∨ id ∈ recs.map Prod.fst := by
  induction recs with
  | nil => intro b id; simp [recordAll]
  | cons p recs ih =>
      intro b id
      have hr : recordAll (p :: recs) b = recordAll recs (mapSet b p.1 p.2) :=
        rfl
      rw [hr, ih, mem_bufKeys_mapSet]
      simp only [List.map_cons, List.mem_cons]
      tauto

theorem mem_of_bufFind_eq_some (b : Buffer) :
    ∀ (id : String) (v : LocalMutation),
      bufFind b id = some v → (id, v) ∈ b := by
  induction b with
  | nil => intro id v h; exact absurd h (by simp [bufFind])
  | cons p rest ih =>
      intro id v h
      rw [bufFind_cons] at h
      by_cases hp : p.1 = id
      · rw [if_pos hp] at h
        injection h with h2
        apply List.mem_cons.mpr
        left
        cases p with
        | mk a m =>
            dsimp only at hp h2
            rw [hp, h2]
      · rw [if_neg hp] at h
        exact List.mem_cons_of_mem _ (ih id v h)

/-- C1: for any interleaving `pre-records, drain, recs-records, drain` of
record calls with drains, each drain's result is exactly the overwrite-fold
of the record calls of its own window (so a record before the swap lands in
that drain's batch, a record after it stays for the next drain); each id's
most recently recorded pending edit in a window is present in that window's
drain result; the second drain's result carries only ids recorded after the
first drain (so nothing drained once is drained again); and each drained
edit lies in the flattened chunk sequence submitted for that drain. -/
theorem drain_swap_correct (pre recs : List (String × LocalMutation)) :
    runOps (pre.map (fun p => BufOp.record p.1 p.2) ++ BufOp.drain ::
        (recs.map (fun p => BufOp.record p.1 p.2) ++ [BufOp.drain])) []
      = ([], [recordAll pre [], recordAll recs []]) ∧
    (∀ id v, lastRecorded pre id = some v → (id, v) ∈ recordAll pre []) ∧
    (∀ id v, lastRecorded recs id = some v → (id, v) ∈ recordAll recs []) ∧
    (∀ id, id ∈ bufKeys (recordAll recs []) ↔ id ∈ recs.map Prod.fst) ∧
    (chunked10 (recordAll recs [])).flatten = recordAll recs [] := by
  refine ⟨?_, ?_, ?_, ?_, chunked10_flatten _⟩
  · simp [runOps, runOps_records]
  · intro id v h
    apply mem_of_bufFind_eq_some
    rw [bufFind_recordAll, h]
  · intro id v h
    apply mem_of_bufFind_eq_some
    rw [bufFind_recordAll, h]
  · intro id
    rw [mem_bufKeys_recordAll]
    simp [bufKeys]

/-! ## The per-chunk retry loop (C6) -/

theorem retryPattern_succ (body : List BatchRecord) (k : Nat) :
    retryPattern body (k + 1)
      = SyncAction.post body :: SyncAction.wait 1000 :: retryPattern body k := by
  simp [retryPattern, List.replicate_succ]

theorem submitRetry_eq (net : Nat → Bool) (body : List BatchRecord) :
    ∀ (k t fuel : Nat), (∀ j, j < k → net (t + j) = false) →
      net (t + k) = true → k < fuel →
      submitRetry net body t fuel = some (retryPattern body k, t + k + 1) := by
  intro k
  induction k with
  | zero =>
      intro t fuel hfail hsucc hfuel
      cases fuel with
      | zero => omega
      | succ f =>
          simp only [submitRetry]
          rw [if_pos (by simpa using hsucc)]
          simp [retryPattern]
  | succ k ih =>
      intro t fuel hfail hsucc hfuel
      cases fuel with
      | zero => omega
      | succ f =>
          have h0 : net t = false := by simpa using hfail 0 (Nat.succ_pos k)
          simp only [submitRetry]
          rw [if_neg (by simp [h0])]
          have hfail2 : ∀ j, j < k → net (t + 1 + j) = false := by
            intro j hj
            rw [show t + 1 + j = t + (j + 1) by omega]
            exact hfail (j + 1) (by omega)
          have hsucc2 : net (t + 1 + k) = true := by
            rw [show t + 1 + k = t + (k + 1) by omega]
            exact hsucc
          rw [ih (t + 1) f hfail2 hsucc2 (by omega)]
          dsimp only
          simp only [retryPattern_succ, Option.some.injEq, Prod.mk.injEq]
          exact ⟨trivial, by omega⟩

theorem submitRetry_none (net : Nat → Bool) (body : List BatchRecord)
    (h : ∀ j, net j = false) :
    ∀ (fuel t : Nat), submitRetry net body t fuel = none := by
  intro fuel
  induction fuel with
  | zero => intro t; rfl
  | succ f ih =>
      intro t
      simp only [submitRetry]
      rw [if_neg (by simp [h t])]
      rw [ih (t + 1)]

theorem submitChunks_cons_decomp (net : Nat → Bool) (fuel : Nat)
    (c : Buffer) (cs : List Buffer) (t : Nat) (tr : List SyncAction)
    (t2 : Nat) (h : submitChunks net fuel (c :: cs) t = some (tr, t2)) :
    ∃ tr1 t1 tr2, submitRetry net (toBatch c) t fuel = some (tr1, t1) ∧
      submitChunks net fuel cs t1 = some (tr2, t2) ∧ tr = tr1 ++ tr2 := by
  rw [submitChunks] at h
  rcases h1 : submitRetry net (toBatch c) t fuel with _ | ⟨tr1, t1⟩
  · rw [h1] at h
    exact absurd h (by simp)
  · rw [h1] at h
    dsimp only at h
    rcases h2 : submitChunks net fuel cs t1 with _ | ⟨tr2, t3⟩
    · rw [h2] at h
      exact absurd h (by simp)
    · rw [h2] at h
      dsimp only at h
      simp only [Option.some.injEq, Prod.mk.injEq] at h
      refine ⟨tr1, t1, tr2, rfl, ?_, h.1.symm⟩
      rw [h2, h.2]

/-- C6: when the first `k` POST attempts for a chunk fail and attempt `k`
succeeds (within fuel), the retry loop performs exactly `k` failed POSTs of
the same body, each followed by the fixed 1000 ms delay — no backoff
growth, no splitting — then the successful POST; when every attempt fails
it never completes, whatever the fuel (no retry limit); and the outer loop
reaches the remaining chunks only through a completed (successful)
submission of the current chunk. -/
theorem chunk_retry_fixed_delay (net : Nat → Bool) (body : List BatchRecord)
    (t k fuel : Nat) (hfail : ∀ j, j < k → net (t + j) = false)
    (hsucc : net (t + k) = true) (hfuel : k < fuel) :
    submitRetry net body t fuel = some (retryPattern body k, t + k + 1) ∧
    retryPattern body k
      = (List.replicate k [SyncAction.post body,
          SyncAction.wait 1000]).flatten ++ [SyncAction.post body] ∧
    (∀ (net2 : Nat → Bool), (∀ j, net2 j = false) →
      ∀ (fuel2 t2 : Nat), submitRetry net2 body t2 fuel2 = none) ∧
    (∀ (cs : List Buffer) (c : Buffer) (t0 : Nat) (tr : List SyncAction)
        (t2 : Nat), submitChunks net fuel (c :: cs) t0 = some (tr, t2) →
      ∃ tr1 t1 tr2, submitRetry net (toBatch c) t0 fuel = some (tr1, t1) ∧
        submitChunks net fuel cs t1 = some (tr2, t2) ∧ tr = tr1 ++ tr2) :=
  ⟨submitRetry_eq net body k t fuel hfail hsucc hfuel, rfl,
    fun net2 h2 fuel2 t2 => submitRetry_none net2 body h2 fuel2 t2,
    fun cs c t0 tr t2 h => submitChunks_cons_decomp net fuel c cs t0 tr t2 h⟩

/-- C6 at a concrete network that fails the first two attempts: two POSTs
of the chunk each followed by a 1000 ms delay, then the successful POST. -/
theorem chunk_retry_fixed_delay_witness :
    submitRetry (fun a => decide (2 ≤ a)) [] 0 3
      = some (retryPattern [] 2, 3) :=
  (chunk_retry_fixed_delay (fun a => decide (2 ≤ a)) [] 0 2 3
    (by decide) (by decide) (by decide)).1

end TodoApp
